import Mathlib

/-!
Verification of the dependency-collection core of `copylibs`
(`copylibs/copylibs.py`, function `find_so_files`).

The source consumes the `pyelftools` API: it reads `header["e_machine"]`
(a string such as `"EM_X86_64"`), fetches the `.dynamic` and `.dynstr`
sections by name (each either absent — `None` — or carrying the header
fields `sh_entsize`, `sh_size` and the raw section bytes `data()`), and
then walks the dynamic table itself.  We embed the program at exactly
that interface: an ELF file is its machine string plus the two optional
sections, a section is its two header fields plus its byte contents,
and Python runtime failures (the exceptions the script can raise or
provoke) are an explicit error type.

Python semantics embedded explicitly:
  * `dynamic["sh_entsize"]` on `None` raises a `TypeError`;
  * `sh_size // ent_size` with `ent_size == 0` raises `ZeroDivisionError`;
  * `construct`'s `Struct(ULInt{64,32} d_tag, ULInt{64,32} d_val).parse`
    raises a `FieldError` when the slice is shorter than the two fields,
    and ignores any extra bytes;
  * `dynstr.get_string(off)` on `None` raises an `AttributeError`; on a
    real section it returns the bytes from `off` up to the first NUL
    (empty when `off` is past the end), never an error;
  * the byte slice `data[a : b]` clamps to the available bytes;
  * `raise RuntimeError(f"Unsupported Architecture: {m}")` for an
    unrecognised machine string.

`Path.glob("**/*.so")` enumerates, in some walk order, every file at any
depth (zero or more directories below the root included) whose final
name component matches `*.so`; we model the file system as the walk-
ordered list of its files, each with its directory path, name and
(already parsed) ELF contents, and the glob as the suffix filter.

Dependency names are byte strings (`List Nat`); `sorted` on a Python
set of strings is a sort of the set under the lexicographic order.
-/

namespace CopyLibs

abbrev Byte := Nat

/-- A dependency name: the bytes of a NUL-terminated `.dynstr` string. -/
abbrev Name := List Byte

/-- The `pyelftools` view of an ELF section used by the script: the two
section-header fields it subscripts, and the raw contents `data()`. -/
structure ElfSection where
  sh_entsize : Nat
  sh_size : Nat
  data : List Byte
deriving DecidableEq, Repr

/-- The `pyelftools` view of an ELF file used by the script: the header
machine string and the `.dynamic` / `.dynstr` sections, each possibly
absent (`get_section_by_name` returns `None`). -/
structure ElfFile where
  e_machine : String
  dynamic : Option ElfSection
  dynstr : Option ElfSection
deriving DecidableEq, Repr

/-- The Python runtime failures the script can raise or provoke. -/
inductive PyError where
  /-- `raise RuntimeError(...)` — the script's unsupported-architecture path. -/
  | runtimeError (msg : String)
  /-- subscripting `None` (absent `.dynamic` section). -/
  | typeError
  /-- calling `get_string` on `None` (absent `.dynstr` section). -/
  | attributeError
  /-- `sh_size // 0`. -/
  | zeroDivisionError
  /-- `construct` slice too short for the declared fields. -/
  | fieldError
deriving DecidableEq, Repr

/-- A line printed on stdout when `opts.verbose` is set. -/
inductive TraceLine where
  /-- the matched file's path, printed before it is opened. -/
  | filePath (dirs : List String) (name : String)
  /-- a resolved dependency name, printed as it is added. -/
  | soName (n : Name)
deriving DecidableEq, Repr

/-- Unsigned little-endian value of a byte list (`ULInt64` / `ULInt32`). -/
def leVal (bs : List Byte) : Nat := bs.foldr (fun b acc => b + 256 * acc) 0

/-- `dynstr.get_string(off)`: the bytes from `off` up to the first NUL. -/
def get_string (ds : List Byte) (off : Nat) : Name :=
  (ds.drop off).takeWhile (fun b => b ≠ 0)

/-- The architecture dispatch of lines 32-37: field width 8 for
`EM_X86_64`, 4 for `EM_386`, otherwise the `RuntimeError`. -/
def arch_width (m : String) : Except PyError Nat :=
  if m = "EM_X86_64" then .ok 8
  else if m = "EM_386" then .ok 4
  else .error (.runtimeError ("Unsupported Architecture: " ++ m))

/-- The slice `dynamic.data()[k*ent_size : (k+1)*ent_size]`. -/
def entry_slice (d : List Byte) (es k : Nat) : List Byte :=
  (d.drop (k * es)).take es

/-- `d_tag` of a parsed slice: the first `w` bytes, little-endian. -/
def entry_tag (w : Nat) (s : List Byte) : Nat := leVal (s.take w)

/-- `d_val` of a parsed slice: the next `w` bytes, little-endian. -/
def entry_val (w : Nat) (s : List Byte) : Nat := leVal ((s.drop w).take w)

/-- One iteration of the entry loop (lines 41-46): parse the `k`-th
slice with the architecture's `Struct`; on tag 1 resolve the name in
`.dynstr` and add it to the set, printing it when verbose; any other
tag is skipped. -/
def scan_entry (w es : Nat) (d : List Byte) (ds? : Option (List Byte))
    (verbose : Bool) (acc : Finset Name) (k : Nat) :
    Except PyError (Finset Name) × List TraceLine :=
  let s := entry_slice d es k
  if s.length < 2 * w then (.error .fieldError, [])
  else if entry_tag w s = 1 then
    match ds? with
    | none => (.error .attributeError, [])
    | some ds =>
      let n := get_string ds (entry_val w s)
      (.ok (insert n acc), if verbose then [TraceLine.soName n] else [])
  else (.ok acc, [])

/-- The entry loop over the index list `ks` (the source's
`range(sh_size // ent_size)`), threading the accumulated set and
collecting the verbose output; an exception aborts the loop. -/
def scan_entries (w es : Nat) (d : List Byte) (ds? : Option (List Byte))
    (verbose : Bool) (ks : List Nat) (acc : Finset Name) :
    Except PyError (Finset Name) × List TraceLine :=
  match ks with
  | [] => (.ok acc, [])
  | k :: rest =>
    match scan_entry w es d ds? verbose acc k with
    | (.error err, tr) => (.error err, tr)
    | (.ok acc', tr) =>
      let r := scan_entries w es d ds? verbose rest acc'
      (r.1, tr ++ r.2)

/-- The per-file body of `find_so_files` (lines 27-46): architecture
check, then `ent_size = dynamic["sh_entsize"]` (a `TypeError` when the
section is absent), then `range(sh_size // ent_size)` (a
`ZeroDivisionError` when `ent_size` is 0), then the entry loop. -/
def read_file (verbose : Bool) (acc : Finset Name) (f : ElfFile) :
    Except PyError (Finset Name) × List TraceLine :=
  match arch_width f.e_machine with
  | .error err => (.error err, [])
  | .ok w =>
    match f.dynamic with
    | none => (.error .typeError, [])
    | some dyn =>
      if dyn.sh_entsize = 0 then (.error .zeroDivisionError, [])
      else
        scan_entries w dyn.sh_entsize dyn.data
          (f.dynstr.map ElfSection.data) verbose
          (List.range (dyn.sh_size / dyn.sh_entsize)) acc

/-- The ELF dynamic-section reader on a single file, started from an
empty set: the spec's `readDependencies(fileBytes)`. -/
def readDependencies (f : ElfFile) : Except PyError (Finset Name) :=
  (read_file false ∅ f).1

/-- A file of the scanned tree: its directory path below the root, its
final name component, and its (already parsed) ELF contents. -/
structure FsEntry where
  dirs : List String
  name : String
  file : ElfFile
deriving DecidableEq, Repr

/-- Whether `*.so` matches a final name component: the name's
characters end with `.so`. -/
def so_match (n : String) : Bool := List.isSuffixOf ".so".data n.data

/-- The walk over the glob's matches: print the path when verbose, read
the file into the shared set, propagate the first exception. -/
def walk_files (verbose : Bool) (files : List FsEntry) (acc : Finset Name) :
    Except PyError (Finset Name) × List TraceLine :=
  match files with
  | [] => (.ok acc, [])
  | e :: rest =>
    let ptr := if verbose then [TraceLine.filePath e.dirs e.name] else []
    match read_file verbose acc e.file with
    | (.error err, tr) => (.error err, ptr ++ tr)
    | (.ok acc', tr) =>
      let r := walk_files verbose rest acc'
      (r.1, ptr ++ tr ++ r.2)

/-- The sorted list of a multiset of names, by insertion sort under
the lexicographic order on byte strings. -/
def msort_names (m : Multiset Name) : List Name :=
  Quot.liftOn m (fun l => List.insertionSort (fun a b => a ≤ b) l)
    (fun l₁ l₂ h => List.eq_of_perm_of_sorted
      ((List.perm_insertionSort _ l₁).trans
        (Quotient.exact (Quotient.sound h) |>.trans
          (List.perm_insertionSort _ l₂).symm))
      (List.sorted_insertionSort _ l₁) (List.sorted_insertionSort _ l₂))

/-- Sorted output of the accumulated set: Python's `sorted(so_names)`
under the lexicographic order on byte strings. -/
def sort_names (s : Finset Name) : List Name := msort_names s.val

/-- `find_so_files`: glob-filter the tree (in walk order), scan every
match into one shared set, and return it sorted.  The first component
is the function's outcome (its return value or the exception it
raises), the second the stdout trace. -/
def find_so_files (verbose : Bool) (fs : List FsEntry) :
    Except PyError (List Name) × List TraceLine :=
  let r := walk_files verbose (fs.filter (fun e => so_match e.name)) ∅
  (r.1.map sort_names, r.2)

/-! Synthetic ELF buffers, for the round-trip properties: a dynamic
section built from a list of (tag, value) pairs at the architecture's
field width, with a well-formed `sh_entsize` of `2 * w`. -/

/-- Little-endian encoding of `n` in `w` bytes. -/
def encodeLE : Nat → Nat → List Byte
  | 0, _ => []
  | w + 1, n => n % 256 :: encodeLE w (n / 256)

/-- The dynamic-section bytes holding the given (tag, value) entries. -/
def mk_dyn_data (w : Nat) (entries : List (Nat × Nat)) : List Byte :=
  (entries.map (fun p => encodeLE w p.1 ++ encodeLE w p.2)).flatten

/-- A synthetic ELF file of machine `m` and field width `w`: its
`.dynamic` section holds the given entries with the architecture's
entry size declared, its `.dynstr` holds `strtab`. -/
def mk_elf (m : String) (w : Nat) (entries : List (Nat × Nat))
    (strtab : List Byte) : ElfFile :=
  { e_machine := m,
    dynamic := some ⟨2 * w, 2 * w * entries.length, mk_dyn_data w entries⟩,
    dynstr := some ⟨0, strtab.length, strtab⟩ }

/-- The names the loop resolves over the index list `ks`: one name per
index whose slice carries tag 1, in loop order. -/
def needed_list (w es : Nat) (d ds : List Byte) (ks : List Nat) : List Name :=
  ks.filterMap (fun k =>
    if entry_tag w (entry_slice d es k) = 1
    then some (get_string ds (entry_val w (entry_slice d es k))) else none)

/-- Modelled from the spec: the reader with the dynamic-entry stride
and entry count DETERMINED BY THE ARCHITECTURE — "the k-th entry is
read at byte offset k times that entry size, and the entry count
equals the dynamic section size divided by that entry size", where
"that entry size" is 16 bytes for 64-bit files and 8 for 32-bit.  It
differs from the source's `read_file` only in using `2 * w` where the
source uses the declared `sh_entsize`; the architecture entry size is
never zero, so the division needs no guard here. -/
def spec_read_dependencies (f : ElfFile) : Except PyError (Finset Name) :=
  match arch_width f.e_machine with
  | .error err => .error err
  | .ok w =>
    match f.dynamic with
    | none => .error .typeError
    | some dyn =>
      (scan_entries w (2 * w) dyn.data (f.dynstr.map ElfSection.data) false
        (List.range (dyn.sh_size / (2 * w))) ∅).1

/-! Concrete inputs used to separate the implementation from the
specified behaviour, and to instantiate the universally quantified
results. -/

/-- The bytes of `"libx.so.1"`. -/
def nameX : Name := [108, 105, 98, 120, 46, 115, 111, 46, 49]

/-- The bytes of `"liby.so.2"`. -/
def nameY : Name := [108, 105, 98, 121, 46, 115, 111, 46, 50]

/-- A 64-bit file whose dynamic section is 17 bytes long with declared
entry size 16: one whole entry (tag 0) plus one dangling byte. -/
def cex_truncation : ElfFile :=
  { e_machine := "EM_X86_64",
    dynamic := some ⟨16, 17, List.replicate 17 0⟩,
    dynstr := some ⟨0, 1, [0]⟩ }

/-- A 64-bit file whose dynamic section declares `sh_entsize` 32 while
its 32 bytes hold two architecture-sized (16-byte) entries: tag 1 at
offset 0 (naming `libx.so.1`) and tag 1 at offset 16 (naming
`liby.so.2`, string offset 10). -/
def cex_stride : ElfFile :=
  { e_machine := "EM_X86_64",
    dynamic := some ⟨32, 32, mk_dyn_data 8 [(1, 0), (1, 10)]⟩,
    dynstr := some ⟨0, 20, nameX ++ [0] ++ nameY ++ [0]⟩ }

/-- A supported file with an empty dynamic table and no `.dynstr`. -/
def cex_no_dynstr : ElfFile :=
  { e_machine := "EM_X86_64",
    dynamic := some ⟨16, 0, []⟩,
    dynstr := none }

/-- A supported file whose dynamic section declares `sh_entsize` 0. -/
def cex_zero_entsize : ElfFile :=
  { e_machine := "EM_X86_64",
    dynamic := some ⟨0, 16, []⟩,
    dynstr := none }

/-- An unsupported-architecture file. -/
def cex_arm : ElfFile :=
  { e_machine := "EM_ARM", dynamic := none, dynstr := none }

/-- A well-formed 64-bit file depending on `libx.so.1`. -/
def fileX : ElfFile := mk_elf "EM_X86_64" 8 [(1, 0)] (nameX ++ [0])

/-- A well-formed 64-bit file depending on `liby.so.2`. -/
def fileY : ElfFile := mk_elf "EM_X86_64" 8 [(1, 0)] (nameY ++ [0])

/-- The spec's example tree: `a/lib1.so` and `a/b/lib1.so` both naming
`libx.so.1`, `a/b/lib2.so` naming `liby.so.2`. -/
def exampleTree : List FsEntry :=
  [⟨["a"], "lib1.so", fileX⟩, ⟨["a", "b"], "lib1.so", fileX⟩,
   ⟨["a", "b"], "lib2.so", fileY⟩]

/-- Decidable equality of outcomes, so that concrete runs can be
checked by `decide`. -/
instance instDecEqExcept {ε α : Type} [DecidableEq ε] [DecidableEq α] :
    DecidableEq (Except ε α)
  | .error a, .error b =>
    if h : a = b then .isTrue (by rw [h])
    else .isFalse (by intro hc; cases hc; exact h rfl)
  | .error _, .ok _ => .isFalse (by intro hc; cases hc)
  | .ok _, .error _ => .isFalse (by intro hc; cases hc)
  | .ok a, .ok b =>
    if h : a = b then .isTrue (by rw [h])
    else .isFalse (by intro hc; cases hc; exact h rfl)

/-! ### Basic facts about the embedded primitives -/

theorem leVal_cons (b : Byte) (bs : List Byte) :
    leVal (b :: bs) = b + 256 * leVal bs := rfl

theorem encodeLE_length (w n : Nat) : (encodeLE w n).length = w := by
  induction w generalizing n with
  | zero => rfl
  | succ w ih => simp [encodeLE, ih]

theorem leVal_encodeLE (w n : Nat) (h : n < 256 ^ w) :
    leVal (encodeLE w n) = n := by
  induction w generalizing n with
  | zero =>
    have : n = 0 := by simpa using h
    simp [this, encodeLE, leVal]
  | succ w ih =>
    have hdiv : n / 256 < 256 ^ w := by
      apply Nat.div_lt_of_lt_mul
      calc n < 256 ^ (w + 1) := h
        _ = 256 * 256 ^ w := by ring
    rw [encodeLE, leVal_cons, ih _ hdiv, Nat.mod_add_div]

theorem mk_dyn_data_cons (w : Nat) (p : Nat × Nat) (entries : List (Nat × Nat)) :
    mk_dyn_data w (p :: entries) =
      (encodeLE w p.1 ++ encodeLE w p.2) ++ mk_dyn_data w entries := by
  simp [mk_dyn_data]

theorem entry_slice_zero (pair rest : List Byte) (es : Nat)
    (h : pair.length = es) : entry_slice (pair ++ rest) es 0 = pair := by
  unfold entry_slice
  rw [Nat.zero_mul, List.drop_zero, ← h, List.take_left]

theorem entry_slice_shift (pair rest : List Byte) (es k : Nat)
    (h : pair.length = es) :
    entry_slice (pair ++ rest) es (k + 1) = entry_slice rest es k := by
  unfold entry_slice
  rw [show (k + 1) * es = es + k * es by ring, ← h, List.drop_append]

/-! ### Case equations for one iteration of the entry loop -/

theorem scan_entry_short (w es : Nat) (d : List Byte) (ds? : Option (List Byte))
    (v : Bool) (acc : Finset Name) (k : Nat)
    (h : (entry_slice d es k).length < 2 * w) :
    scan_entry w es d ds? v acc k = (.error .fieldError, []) := by
  simp [scan_entry, h]

theorem scan_entry_skip (w es : Nat) (d : List Byte) (ds? : Option (List Byte))
    (v : Bool) (acc : Finset Name) (k : Nat)
    (h : ¬ (entry_slice d es k).length < 2 * w)
    (ht : entry_tag w (entry_slice d es k) ≠ 1) :
    scan_entry w es d ds? v acc k = (.ok acc, []) := by
  simp [scan_entry, h, ht]

theorem scan_entry_needed (w es : Nat) (d ds : List Byte)
    (v : Bool) (acc : Finset Name) (k : Nat)
    (h : ¬ (entry_slice d es k).length < 2 * w)
    (ht : entry_tag w (entry_slice d es k) = 1) :
    scan_entry w es d (some ds) v acc k =
      (.ok (insert (get_string ds (entry_val w (entry_slice d es k))) acc),
       if v then
         [TraceLine.soName (get_string ds (entry_val w (entry_slice d es k)))]
       else []) := by
  simp [scan_entry, h, ht]

theorem scan_entry_no_dynstr (w es : Nat) (d : List Byte)
    (v : Bool) (acc : Finset Name) (k : Nat)
    (h : ¬ (entry_slice d es k).length < 2 * w)
    (ht : entry_tag w (entry_slice d es k) = 1) :
    scan_entry w es d none v acc k = (.error .attributeError, []) := by
  simp [scan_entry, h, ht]

/-! ### The entry loop, characterised declaratively -/

/-- When `.dynstr` is present and every visited slice holds the two
architecture-width fields, the loop never raises: it returns the
accumulated set extended by the tag-1 names, and prints exactly those
names when verbose. -/
theorem scan_entries_ok (w es : Nat) (d ds : List Byte) (v : Bool)
    (ks : List Nat) (acc : Finset Name)
    (hlen : ∀ k ∈ ks, 2 * w ≤ (entry_slice d es k).length) :
    scan_entries w es d (some ds) v ks acc =
      (.ok (acc ∪ (needed_list w es d ds ks).toFinset),
       if v then (needed_list w es d ds ks).map TraceLine.soName else []) := by
  induction ks generalizing acc with
  | nil => simp [scan_entries, needed_list]
  | cons k rest ih =>
    have hk : ¬ (entry_slice d es k).length < 2 * w :=
      not_lt.mpr (hlen k (by simp))
    have hrest : ∀ j ∈ rest, 2 * w ≤ (entry_slice d es j).length :=
      fun j hj => hlen j (by simp [hj])
    by_cases ht : entry_tag w (entry_slice d es k) = 1
    · rw [scan_entries, scan_entry_needed w es d ds v acc k hk ht]
      dsimp only
      rw [ih _ hrest]
      simp only [needed_list, List.filterMap_cons, ht, if_pos]
      congr 1
      · rw [List.toFinset_cons, Finset.insert_union, Finset.union_insert]
      · cases v <;> simp
    · rw [scan_entries, scan_entry_skip w es d ds v acc k hk ht]
      dsimp only
      rw [ih _ hrest]
      simp only [needed_list, List.filterMap_cons, ht, if_neg]
      simp

/-- A loop in which no visited slice carries tag 1 succeeds without
touching `.dynstr` at all and adds nothing. -/
theorem scan_entries_no_needed (w es : Nat) (d : List Byte)
    (ds? : Option (List Byte)) (v : Bool) (ks : List Nat) (acc : Finset Name)
    (h : ∀ k ∈ ks, 2 * w ≤ (entry_slice d es k).length ∧
      entry_tag w (entry_slice d es k) ≠ 1) :
    scan_entries w es d ds? v ks acc = (.ok acc, []) := by
  induction ks generalizing acc with
  | nil => simp [scan_entries]
  | cons k rest ih =>
    have hk := h k (by simp)
    rw [scan_entries,
      scan_entry_skip w es d ds? v acc k (not_lt.mpr hk.1) hk.2]
    dsimp only
    rw [ih _ (fun j hj => h j (by simp [hj]))]
    simp

/-- With `.dynstr` absent, the loop raises the `AttributeError` at the
first tag-1 slice it reaches. -/
theorem scan_entries_no_dynstr (w es : Nat) (d : List Byte) (v : Bool)
    (ks₁ : List Nat) (j : Nat) (ks₂ : List Nat) (acc : Finset Name)
    (h₁ : ∀ k ∈ ks₁, 2 * w ≤ (entry_slice d es k).length ∧
      entry_tag w (entry_slice d es k) ≠ 1)
    (hj : 2 * w ≤ (entry_slice d es j).length)
    (ht : entry_tag w (entry_slice d es j) = 1) :
    scan_entries w es d none v (ks₁ ++ j :: ks₂) acc =
      (.error .attributeError, []) := by
  induction ks₁ generalizing acc with
  | nil =>
    rw [List.nil_append, scan_entries,
      scan_entry_no_dynstr w es d v acc j (not_lt.mpr hj) ht]
  | cons k rest ih =>
    have hk := h₁ k (by simp)
    rw [List.cons_append, scan_entries,
      scan_entry_skip w es d none v acc k (not_lt.mpr hk.1) hk.2]
    dsimp only
    rw [ih _ (fun i hi => h₁ i (by simp [hi]))]
    simp

/-! ### The loop result neither depends on the verbosity flag nor on
the already-accumulated set (beyond a union) -/

theorem except_map_map {ε α β γ : Type} (f : β → γ) (g : α → β)
    (x : Except ε α) : (x.map g).map f = x.map (fun a => f (g a)) := by
  cases x <;> rfl

theorem except_map_congr {ε α β : Type} {f g : α → β} (x : Except ε α)
    (h : ∀ a, f a = g a) : x.map f = x.map g := by
  cases x <;> simp [Except.map, h]

theorem scan_entries_fst_acc (w es : Nat) (d : List Byte)
    (ds? : Option (List Byte)) (v : Bool) (ks : List Nat) :
    ∀ acc : Finset Name,
      (scan_entries w es d ds? v ks acc).1 =
        ((scan_entries w es d ds? v ks ∅).1).map (fun s => acc ∪ s) := by
  induction ks with
  | nil => intro acc; simp [scan_entries, Except.map]
  | cons k rest ih =>
    intro acc
    by_cases h1 : (entry_slice d es k).length < 2 * w
    · rw [scan_entries, scan_entries,
        scan_entry_short w es d ds? v acc k h1,
        scan_entry_short w es d ds? v ∅ k h1]
      rfl
    · by_cases ht : entry_tag w (entry_slice d es k) = 1
      · cases ds? with
        | none =>
          rw [scan_entries, scan_entries,
            scan_entry_no_dynstr w es d v acc k h1 ht,
            scan_entry_no_dynstr w es d v ∅ k h1 ht]
          rfl
        | some ds =>
          rw [scan_entries, scan_entries,
            scan_entry_needed w es d ds v acc k h1 ht,
            scan_entry_needed w es d ds v ∅ k h1 ht]
          dsimp only
          rw [ih (insert (get_string ds (entry_val w (entry_slice d es k))) acc),
            ih (insert (get_string ds (entry_val w (entry_slice d es k))) ∅),
            except_map_map]
          apply except_map_congr
          intro a
          rw [Finset.insert_union, Finset.insert_union, Finset.empty_union,
            Finset.union_insert]
      · rw [scan_entries, scan_entries,
          scan_entry_skip w es d ds? v acc k h1 ht,
          scan_entry_skip w es d ds? v ∅ k h1 ht]
        dsimp only
        exact ih acc

theorem scan_entries_fst_verbose (w es : Nat) (d : List Byte)
    (ds? : Option (List Byte)) (v : Bool) (ks : List Nat) :
    ∀ acc : Finset Name,
      (scan_entries w es d ds? v ks acc).1 =
        (scan_entries w es d ds? false ks acc).1 := by
  induction ks with
  | nil => intro acc; rfl
  | cons k rest ih =>
    intro acc
    by_cases h1 : (entry_slice d es k).length < 2 * w
    · rw [scan_entries, scan_entries,
        scan_entry_short w es d ds? v acc k h1,
        scan_entry_short w es d ds? false acc k h1]
    · by_cases ht : entry_tag w (entry_slice d es k) = 1
      · cases ds? with
        | none =>
          rw [scan_entries, scan_entries,
            scan_entry_no_dynstr w es d v acc k h1 ht,
            scan_entry_no_dynstr w es d false acc k h1 ht]
        | some ds =>
          rw [scan_entries, scan_entries,
            scan_entry_needed w es d ds v acc k h1 ht,
            scan_entry_needed w es d ds false acc k h1 ht]
          dsimp only
          exact ih _
      · rw [scan_entries, scan_entries,
          scan_entry_skip w es d ds? v acc k h1 ht,
          scan_entry_skip w es d ds? false acc k h1 ht]
        dsimp only
        exact ih acc

/-! ### The per-file reader: its outcome is the single-file reader's,
merged into the shared set, whatever the verbosity -/

theorem read_file_fst (v : Bool) (acc : Finset Name) (f : ElfFile) :
    (read_file v acc f).1 = (readDependencies f).map (fun s => acc ∪ s) := by
  unfold readDependencies read_file
  cases hm : arch_width f.e_machine with
  | error err => simp [Except.map]
  | ok w =>
    cases hd : f.dynamic with
    | none => simp [Except.map]
    | some dyn =>
      dsimp only
      by_cases hes : dyn.sh_entsize = 0
      · simp [hes, Except.map]
      · simp only [hes, if_neg, if_false, Bool.false_eq_true]
        rw [scan_entries_fst_verbose, scan_entries_fst_acc]

theorem read_file_fst_err (v : Bool) (acc : Finset Name) (f : ElfFile)
    (err : PyError) :
    (read_file v acc f).1 = .error err ↔ readDependencies f = .error err := by
  rw [read_file_fst]
  cases readDependencies f <;> simp [Except.map]

theorem read_file_fst_ok (v : Bool) (acc : Finset Name) (f : ElfFile)
    (S : Finset Name) :
    (read_file v acc f).1 = .ok S ↔
      ∃ T, readDependencies f = .ok T ∧ S = acc ∪ T := by
  rw [read_file_fst]
  cases readDependencies f <;> simp [Except.map, eq_comm]

/-! ### The directory walk -/

theorem walk_files_cons_err (v : Bool) (acc : Finset Name) (e : FsEntry)
    (rest : List FsEntry) (err : PyError)
    (h : (read_file v acc e.file).1 = .error err) :
    (walk_files v (e :: rest) acc).1 = .error err := by
  rw [walk_files]
  cases hp : read_file v acc e.file with
  | mk r t =>
    rw [hp] at h
    cases r with
    | error err' => cases h; rfl
    | ok s => cases h

theorem walk_files_cons_ok (v : Bool) (acc : Finset Name) (e : FsEntry)
    (rest : List FsEntry) (S : Finset Name)
    (h : (read_file v acc e.file).1 = .ok S) :
    (walk_files v (e :: rest) acc).1 = (walk_files v rest S).1 := by
  rw [walk_files]
  cases hp : read_file v acc e.file with
  | mk r t =>
    rw [hp] at h
    cases r with
    | error err' => cases h
    | ok s => cases h; rfl

theorem walk_files_fst_verbose (v : Bool) (files : List FsEntry) :
    ∀ acc : Finset Name,
      (walk_files v files acc).1 = (walk_files false files acc).1 := by
  induction files with
  | nil => intro acc; rfl
  | cons e rest ih =>
    intro acc
    cases hr : readDependencies e.file with
    | error err =>
      rw [walk_files_cons_err v acc e rest err
          ((read_file_fst_err v acc e.file err).mpr hr),
        walk_files_cons_err false acc e rest err
          ((read_file_fst_err false acc e.file err).mpr hr)]
    | ok T =>
      rw [walk_files_cons_ok v acc e rest (acc ∪ T)
          ((read_file_fst_ok v acc e.file (acc ∪ T)).mpr ⟨T, hr, rfl⟩),
        walk_files_cons_ok false acc e rest (acc ∪ T)
          ((read_file_fst_ok false acc e.file (acc ∪ T)).mpr ⟨T, hr, rfl⟩)]
      exact ih (acc ∪ T)

theorem walk_files_fst_acc (v : Bool) (files : List FsEntry) :
    ∀ acc : Finset Name,
      (walk_files v files acc).1 =
        ((walk_files v files ∅).1).map (fun s => acc ∪ s) := by
  induction files with
  | nil => intro acc; simp [walk_files, Except.map]
  | cons e rest ih =>
    intro acc
    cases hr : readDependencies e.file with
    | error err =>
      rw [walk_files_cons_err v acc e rest err
          ((read_file_fst_err v acc e.file err).mpr hr),
        walk_files_cons_err v ∅ e rest err
          ((read_file_fst_err v ∅ e.file err).mpr hr)]
      rfl
    | ok T =>
      rw [walk_files_cons_ok v acc e rest (acc ∪ T)
          ((read_file_fst_ok v acc e.file (acc ∪ T)).mpr ⟨T, hr, rfl⟩),
        walk_files_cons_ok v ∅ e rest (∅ ∪ T)
          ((read_file_fst_ok v ∅ e.file (∅ ∪ T)).mpr ⟨T, hr, rfl⟩),
        ih (acc ∪ T), ih (∅ ∪ T), except_map_map]
      apply except_map_congr
      intro s
      simp [Finset.union_assoc]

theorem walk_files_ok_mem (v : Bool) (files : List FsEntry) :
    ∀ (acc S : Finset Name), (walk_files v files acc).1 = .ok S →
      ∀ x, x ∈ S ↔ x ∈ acc ∨
        ∃ e ∈ files, ∃ T, readDependencies e.file = .ok T ∧ x ∈ T := by
  induction files with
  | nil =>
    intro acc S h x
    rw [walk_files] at h
    cases h
    simp
  | cons e rest ih =>
    intro acc S h x
    cases hr : readDependencies e.file with
    | error err =>
      rw [walk_files_cons_err v acc e rest err
          ((read_file_fst_err v acc e.file err).mpr hr)] at h
      cases h
    | ok T =>
      rw [walk_files_cons_ok v acc e rest (acc ∪ T)
          ((read_file_fst_ok v acc e.file (acc ∪ T)).mpr ⟨T, hr, rfl⟩)] at h
      rw [ih (acc ∪ T) S h x]
      simp only [List.mem_cons, Finset.mem_union]
      constructor
      · rintro (⟨hx | hx⟩ | ⟨e', he', T', hT', hx⟩)
        · exact Or.inl hx
        · exact Or.inr ⟨e, Or.inl rfl, T, hr, hx⟩
        · exact Or.inr ⟨e', Or.inr he', T', hT', hx⟩
      · rintro (hx | ⟨e', he' | he', T', hT', hx⟩)
        · exact Or.inl (Or.inl hx)
        · subst he'
          rw [hr] at hT'
          cases hT'
          exact Or.inl (Or.inr hx)
        · exact Or.inr ⟨e', he', T', hT', hx⟩

theorem walk_files_ok_of_all (v : Bool) (files : List FsEntry)
    (h : ∀ e ∈ files, ∃ T, readDependencies e.file = .ok T) :
    ∀ acc : Finset Name, ∃ S, (walk_files v files acc).1 = .ok S := by
  induction files with
  | nil => intro acc; exact ⟨acc, rfl⟩
  | cons e rest ih =>
    intro acc
    obtain ⟨T, hT⟩ := h e (by simp)
    rw [walk_files_cons_ok v acc e rest (acc ∪ T)
        ((read_file_fst_ok v acc e.file (acc ∪ T)).mpr ⟨T, hT, rfl⟩)]
    exact ih (fun e' he' => h e' (by simp [he'])) (acc ∪ T)

theorem walk_files_err (v : Bool) (pre : List FsEntry) :
    ∀ (acc : Finset Name) (bad : FsEntry) (rest : List FsEntry)
      (err : PyError),
      (∀ e ∈ pre, ∃ T, readDependencies e.file = .ok T) →
      readDependencies bad.file = .error err →
      (walk_files v (pre ++ bad :: rest) acc).1 = .error err := by
  induction pre with
  | nil =>
    intro acc bad rest err _ hbad
    rw [List.nil_append]
    exact walk_files_cons_err v acc bad rest err
      ((read_file_fst_err v acc bad.file err).mpr hbad)
  | cons e pre' ih =>
    intro acc bad rest err hpre hbad
    obtain ⟨T, hT⟩ := hpre e (by simp)
    rw [List.cons_append,
      walk_files_cons_ok v acc e (pre' ++ bad :: rest) (acc ∪ T)
        ((read_file_fst_ok v acc e.file (acc ∪ T)).mpr ⟨T, hT, rfl⟩)]
    exact ih (acc ∪ T) bad rest err
      (fun e' he' => hpre e' (by simp [he'])) hbad

/-! ### Reading back a synthetic dynamic section -/

theorem mk_pair_length (w : Nat) (p : Nat × Nat) :
    (encodeLE w p.1 ++ encodeLE w p.2).length = 2 * w := by
  rw [List.length_append, encodeLE_length, encodeLE_length]
  ring

theorem entry_tag_encode (w t u : Nat) (ht : t < 256 ^ w) :
    entry_tag w (encodeLE w t ++ encodeLE w u) = t := by
  unfold entry_tag
  rw [List.take_left' (encodeLE_length w t), leVal_encodeLE _ _ ht]

theorem entry_val_encode (w t u : Nat) (hu : u < 256 ^ w) :
    entry_val w (encodeLE w t ++ encodeLE w u) = u := by
  unfold entry_val
  rw [List.drop_left' (encodeLE_length w t),
    List.take_of_length_le (le_of_eq (encodeLE_length w u))]
  exact leVal_encodeLE _ _ hu

theorem entry_slice_mk (w : Nat) (entries : List (Nat × Nat)) (k : Nat)
    (hk : k < entries.length) :
    entry_slice (mk_dyn_data w entries) (2 * w) k =
      encodeLE w (entries.get ⟨k, hk⟩).1 ++
        encodeLE w (entries.get ⟨k, hk⟩).2 := by
  induction entries generalizing k with
  | nil => cases hk
  | cons p rest ih =>
    cases k with
    | zero =>
      rw [mk_dyn_data_cons]
      simpa using entry_slice_zero _ _ _ (mk_pair_length w p)
    | succ j =>
      rw [mk_dyn_data_cons, entry_slice_shift _ _ _ _ (mk_pair_length w p)]
      simpa using ih j (by simpa using hk)

theorem needed_list_mk (w : Nat) (ds : List Byte) (entries : List (Nat × Nat))
    (hb : ∀ p ∈ entries, p.1 < 256 ^ w ∧ p.2 < 256 ^ w) :
    needed_list w (2 * w) (mk_dyn_data w entries) ds
        (List.range entries.length) =
      entries.filterMap
        (fun p => if p.1 = 1 then some (get_string ds p.2) else none) := by
  induction entries with
  | nil => rfl
  | cons p rest ih =>
    have hplen := mk_pair_length w p
    have hb0 := hb p (by simp)
    have hsh : ∀ k : Nat,
        entry_slice (mk_dyn_data w (p :: rest)) (2 * w) (k + 1) =
          entry_slice (mk_dyn_data w rest) (2 * w) k := by
      intro k
      rw [mk_dyn_data_cons]
      exact entry_slice_shift _ _ _ _ hplen
    have h0 : entry_slice (mk_dyn_data w (p :: rest)) (2 * w) 0 =
        encodeLE w p.1 ++ encodeLE w p.2 := by
      rw [mk_dyn_data_cons]
      exact entry_slice_zero _ _ _ hplen
    rw [List.length_cons, List.range_succ_eq_map]
    unfold needed_list
    rw [List.filterMap_cons, List.filterMap_map]
    have htail :
        List.filterMap
          ((fun k =>
            if entry_tag w (entry_slice (mk_dyn_data w (p :: rest)) (2 * w) k) = 1
            then some (get_string ds
              (entry_val w (entry_slice (mk_dyn_data w (p :: rest)) (2 * w) k)))
            else none) ∘ Nat.succ) (List.range rest.length) =
        needed_list w (2 * w) (mk_dyn_data w rest) ds
          (List.range rest.length) := by
      unfold needed_list
      apply List.filterMap_congr
      intro k _
      simp only [Function.comp_apply, Nat.succ_eq_add_one, hsh k]
    rw [htail, ih (fun q hq => hb q (by simp [hq]))]
    rw [h0, entry_tag_encode w p.1 p.2 hb0.1, entry_val_encode w p.1 p.2 hb0.2]
    by_cases hp1 : p.1 = 1
    · simp [hp1, List.filterMap_cons]
    · simp [hp1, List.filterMap_cons]

/-- The reader on a synthetic well-formed file: exactly the tag-1
entries' strings come back, as a set. -/
theorem readDependencies_mk (m : String) (w : Nat)
    (harch : arch_width m = .ok w) (hw : 0 < w)
    (entries : List (Nat × Nat)) (strtab : List Byte)
    (hb : ∀ p ∈ entries, p.1 < 256 ^ w ∧ p.2 < 256 ^ w) :
    readDependencies (mk_elf m w entries strtab) =
      .ok (entries.filterMap
        (fun p => if p.1 = 1 then some (get_string strtab p.2) else none)).toFinset := by
  have h2w : 0 < 2 * w := by omega
  have hlen : ∀ k ∈ List.range entries.length,
      2 * w ≤ (entry_slice (mk_dyn_data w entries) (2 * w) k).length := by
    intro k hk
    rw [entry_slice_mk w entries k (List.mem_range.mp hk), List.length_append,
      encodeLE_length, encodeLE_length]
    omega
  unfold readDependencies read_file
  simp only [mk_elf]
  rw [harch]
  dsimp only
  simp only [Option.map_some']
  rw [if_neg (by omega : ¬ 2 * w = 0),
    Nat.mul_div_cancel_left entries.length h2w,
    scan_entries_ok w (2 * w) (mk_dyn_data w entries) strtab false
      (List.range entries.length) ∅ hlen,
    needed_list_mk w strtab entries hb]
  simp

/-! ### `find_so_files` on a single matched file -/

theorem find_so_files_single (v : Bool) (e : FsEntry)
    (hso : so_match e.name = true) (S : Finset Name)
    (h : readDependencies e.file = .ok S) :
    (find_so_files v [e]).1 = .ok (sort_names S) := by
  unfold find_so_files
  dsimp only
  have hf : List.filter (fun e => so_match e.name) [e] = [e] := by
    simp [List.filter_cons, hso]
  rw [hf,
    walk_files_cons_ok v ∅ e [] (∅ ∪ S)
      ((read_file_fst_ok v ∅ e.file (∅ ∪ S)).mpr ⟨S, h, rfl⟩)]
  rw [Finset.empty_union]
  rfl

/-! ### The sorted output -/

theorem mem_sort_names (s : Finset Name) (x : Name) :
    x ∈ sort_names s ↔ x ∈ s := by
  rcases s with ⟨m, hm⟩
  revert hm
  refine Quotient.inductionOn m (fun l hm => ?_)
  show x ∈ List.insertionSort (fun a b => a ≤ b) l ↔ _
  rw [(List.perm_insertionSort _ l).mem_iff, Finset.mem_mk]
  exact (Multiset.mem_coe).symm

theorem sort_names_sorted (s : Finset Name) :
    List.Sorted (fun a b : Name => a ≤ b) (sort_names s) := by
  rcases s with ⟨m, hm⟩
  revert hm
  refine Quotient.inductionOn m (fun l hm => ?_)
  exact List.sorted_insertionSort _ l

theorem sort_names_nodup (s : Finset Name) : (sort_names s).Nodup := by
  rcases s with ⟨m, hm⟩
  revert hm
  refine Quotient.inductionOn m (fun l hm => ?_)
  exact ((List.perm_insertionSort _ l).nodup_iff).mpr (by exact hm)

theorem find_so_files_ok_names (v : Bool) (fs : List FsEntry)
    (names : List Name) (h : (find_so_files v fs).1 = .ok names) :
    ∃ S, (walk_files v (fs.filter fun e => so_match e.name) ∅).1 = .ok S ∧
      names = sort_names S := by
  unfold find_so_files at h
  dsimp only at h
  cases hw : (walk_files v (fs.filter fun e => so_match e.name) ∅).1 with
  | error err => rw [hw] at h; cases h
  | ok S =>
    rw [hw] at h
    cases h
    exact ⟨S, rfl, rfl⟩

/-! ### Characterisations of the reader on whole files -/

theorem range_split (j m : Nat) :
    List.range (j + (m + 1)) = List.range j ++ j ::
      List.map (fun i => j + 1 + i) (List.range m) := by
  rw [List.range_add, List.range_succ_eq_map, List.map_cons, List.map_map]
  congr 1
  congr 1
  congr 1
  funext i
  simp only [Function.comp_apply, Nat.succ_eq_add_one]
  omega

theorem readDependencies_char (f : ElfFile) (w : Nat) (dyn sd : ElfSection)
    (harch : arch_width f.e_machine = .ok w)
    (hdyn : f.dynamic = some dyn)
    (hds : f.dynstr = some sd)
    (hes : dyn.sh_entsize ≠ 0)
    (hlen : ∀ k < dyn.sh_size / dyn.sh_entsize,
      2 * w ≤ (entry_slice dyn.data dyn.sh_entsize k).length) :
    readDependencies f =
      .ok (needed_list w dyn.sh_entsize dyn.data sd.data
        (List.range (dyn.sh_size / dyn.sh_entsize))).toFinset := by
  unfold readDependencies read_file
  rw [harch]
  dsimp only
  rw [hdyn]
  dsimp only
  rw [if_neg hes, hds]
  simp only [Option.map_some']
  rw [scan_entries_ok w dyn.sh_entsize dyn.data sd.data false _ ∅
    (fun k hk => hlen k (List.mem_range.mp hk))]
  simp

theorem readDependencies_dyn_none (f : ElfFile) (w : Nat)
    (harch : arch_width f.e_machine = .ok w) (hdyn : f.dynamic = none) :
    readDependencies f = .error .typeError := by
  unfold readDependencies read_file
  rw [harch]
  dsimp only
  rw [hdyn]

theorem readDependencies_no_dynstr_ok (f : ElfFile) (w : Nat)
    (dyn : ElfSection)
    (harch : arch_width f.e_machine = .ok w)
    (hdyn : f.dynamic = some dyn)
    (hds : f.dynstr = none)
    (hes : dyn.sh_entsize ≠ 0)
    (hall : ∀ k < dyn.sh_size / dyn.sh_entsize,
      2 * w ≤ (entry_slice dyn.data dyn.sh_entsize k).length ∧
        entry_tag w (entry_slice dyn.data dyn.sh_entsize k) ≠ 1) :
    readDependencies f = .ok ∅ := by
  unfold readDependencies read_file
  rw [harch]
  dsimp only
  rw [hdyn]
  dsimp only
  rw [if_neg hes, hds]
  simp only [Option.map_none']
  rw [scan_entries_no_needed w dyn.sh_entsize dyn.data none false _ ∅
    (fun k hk => hall k (List.mem_range.mp hk))]

theorem readDependencies_no_dynstr_err (f : ElfFile) (w : Nat)
    (dyn : ElfSection) (j : Nat)
    (harch : arch_width f.e_machine = .ok w)
    (hdyn : f.dynamic = some dyn)
    (hds : f.dynstr = none)
    (hes : dyn.sh_entsize ≠ 0)
    (hj : j < dyn.sh_size / dyn.sh_entsize)
    (hpre : ∀ k < j,
      2 * w ≤ (entry_slice dyn.data dyn.sh_entsize k).length ∧
        entry_tag w (entry_slice dyn.data dyn.sh_entsize k) ≠ 1)
    (hjlen : 2 * w ≤ (entry_slice dyn.data dyn.sh_entsize j).length)
    (hjtag : entry_tag w (entry_slice dyn.data dyn.sh_entsize j) = 1) :
    readDependencies f = .error .attributeError := by
  unfold readDependencies read_file
  rw [harch]
  dsimp only
  rw [hdyn]
  dsimp only
  rw [if_neg hes, hds]
  simp only [Option.map_none']
  obtain ⟨m, hm⟩ : ∃ m, dyn.sh_size / dyn.sh_entsize = j + (m + 1) :=
    ⟨dyn.sh_size / dyn.sh_entsize - j - 1, by omega⟩
  rw [hm, range_split j m,
    scan_entries_no_dynstr w dyn.sh_entsize dyn.data false
      (List.range j) j _ ∅
      (fun k hk => hpre k (List.mem_range.mp hk)) hjlen hjtag]

theorem mem_needed_toFinset (w es : Nat) (d ds : List Byte) (ks : List Nat)
    (x : Name) :
    x ∈ (needed_list w es d ds ks).toFinset ↔
      ∃ k ∈ ks, entry_tag w (entry_slice d es k) = 1 ∧
        x = get_string ds (entry_val w (entry_slice d es k)) := by
  rw [List.mem_toFinset]
  unfold needed_list
  rw [List.mem_filterMap]
  constructor
  · rintro ⟨k, hk, hif⟩
    by_cases h1 : entry_tag w (entry_slice d es k) = 1
    · rw [if_pos h1] at hif
      cases hif
      exact ⟨k, hk, h1, rfl⟩
    · rw [if_neg h1] at hif
      cases hif
  · rintro ⟨k, hk, h1, rfl⟩
    exact ⟨k, hk, by rw [if_pos h1]⟩

theorem mem_filterMap_needed (entries : List (Nat × Nat)) (strtab : List Byte)
    (x : Name) :
    x ∈ (entries.filterMap
      (fun p => if p.1 = 1 then some (get_string strtab p.2) else none)).toFinset ↔
      ∃ p ∈ entries, p.1 = 1 ∧ x = get_string strtab p.2 := by
  rw [List.mem_toFinset, List.mem_filterMap]
  constructor
  · rintro ⟨p, hp, hif⟩
    by_cases h1 : p.1 = 1
    · rw [if_pos h1] at hif
      cases hif
      exact ⟨p, hp, h1, rfl⟩
    · rw [if_neg h1] at hif
      cases hif
  · rintro ⟨p, hp, h1, rfl⟩
    exact ⟨p, hp, by rw [if_pos h1]⟩

/-! ## The claims -/

/-- C4: for every ELF input whose header machine-type field is neither
`EM_X86_64` nor `EM_386`, the reader fails with the
unsupported-architecture error and extracts no dependency names from
the file (whatever the verbosity and whatever was already
accumulated, the outcome is that error and nothing else). -/
theorem claim_C4_unsupported_arch (f : ElfFile)
    (h64 : f.e_machine ≠ "EM_X86_64") (h32 : f.e_machine ≠ "EM_386") :
    readDependencies f =
      .error (.runtimeError ("Unsupported Architecture: " ++ f.e_machine)) ∧
    ∀ (v : Bool) (acc : Finset Name),
      (read_file v acc f).1 =
        .error (.runtimeError ("Unsupported Architecture: " ++ f.e_machine)) := by
  have harch : arch_width f.e_machine =
      .error (.runtimeError ("Unsupported Architecture: " ++ f.e_machine)) := by
    unfold arch_width
    rw [if_neg h64, if_neg h32]
  constructor
  · unfold readDependencies read_file
    rw [harch]
  · intro v acc
    unfold read_file
    rw [harch]

/-- C4, instantiated: the `EM_ARM` file is rejected. -/
theorem claim_C4_witness :
    readDependencies cex_arm =
      .error (.runtimeError ("Unsupported Architecture: " ++ cex_arm.e_machine)) ∧
    ∀ (v : Bool) (acc : Finset Name),
      (read_file v acc cex_arm).1 =
        .error (.runtimeError ("Unsupported Architecture: " ++ cex_arm.e_machine)) :=
  claim_C4_unsupported_arch cex_arm (by decide) (by decide)

/-- C9: the returned result of the collector is the same with
verbosity on and off; the flag only governs the trace. -/
theorem claim_C9_verbose_independent (fs : List FsEntry) :
    (find_so_files true fs).1 = (find_so_files false fs).1 := by
  unfold find_so_files
  dsimp only
  rw [walk_files_fst_verbose]

/-- C10: a dynamic section declaring `sh_entsize` 0 makes the scan
fail with the division-by-zero error — not with either of the
specified error kinds (in particular not with the script's own
`RuntimeError`). -/
theorem claim_C10_zero_entsize :
    (find_so_files false [⟨[], "z.so", cex_zero_entsize⟩]).1 =
      .error .zeroDivisionError ∧
    ∀ msg, (find_so_files false [⟨[], "z.so", cex_zero_entsize⟩]).1 ≠
      .error (.runtimeError msg) := by
  refine ⟨by decide, ?_⟩
  intro msg h
  rw [show (find_so_files false [⟨[], "z.so", cex_zero_entsize⟩]).1 =
      Except.error PyError.zeroDivisionError from by decide] at h
  simp at h

/-- C2, counterexample: a 17-byte dynamic section with declared entry
size 16 is NOT rejected — the collector returns an empty result and no
error of any kind, so there is no `MalformedElf` failure. -/
theorem claim_C2_cex :
    (find_so_files false [⟨[], "t.so", cex_truncation⟩]).1 = .ok [] ∧
    ∀ err : PyError,
      (find_so_files false [⟨[], "t.so", cex_truncation⟩]).1 ≠ .error err := by
  refine ⟨by decide, ?_⟩
  intro err h
  rw [show (find_so_files false [⟨[], "t.so", cex_truncation⟩]).1 =
      Except.ok [] from by decide] at h
  simp at h

/-- C2 (amended): a dynamic-section byte length that is not an exact
multiple of the declared entry size does not make the reader fail: it
processes exactly `sh_size / sh_entsize` (floor) entries and silently
ignores the remainder bytes. -/
theorem claim_C2_amended (f : ElfFile) (w : Nat) (dyn sd : ElfSection)
    (harch : arch_width f.e_machine = .ok w)
    (hdyn : f.dynamic = some dyn) (hds : f.dynstr = some sd)
    (hes : dyn.sh_entsize ≠ 0)
    (_hrem : ¬ dyn.sh_entsize ∣ dyn.sh_size)
    (hlen : ∀ k < dyn.sh_size / dyn.sh_entsize,
      2 * w ≤ (entry_slice dyn.data dyn.sh_entsize k).length) :
    readDependencies f =
      .ok (needed_list w dyn.sh_entsize dyn.data sd.data
        (List.range (dyn.sh_size / dyn.sh_entsize))).toFinset ∧
    ∀ err : PyError, readDependencies f ≠ .error err := by
  have hc := readDependencies_char f w dyn sd harch hdyn hds hes hlen
  refine ⟨hc, fun err h => ?_⟩
  rw [hc] at h
  simp at h

/-- C2, instantiated at the size-17 section. -/
theorem claim_C2_witness :
    readDependencies cex_truncation =
      .ok (needed_list 8 16 (List.replicate 17 0) [0]
        (List.range (17 / 16))).toFinset :=
  (claim_C2_amended cex_truncation 8 ⟨16, 17, List.replicate 17 0⟩ ⟨0, 1, [0]⟩
    (by decide) rfl rfl (by decide) (by decide) (by decide)).1

/-- C5, counterexample: a file with `.dynamic` present (an empty
table) and `.dynstr` absent SUCCEEDS with an empty result — no failure
of any kind, so no `MalformedElf` for an absent `.dynstr`. -/
theorem claim_C5_cex :
    readDependencies cex_no_dynstr = .ok ∅ ∧
    ∀ err : PyError, readDependencies cex_no_dynstr ≠ .error err := by
  refine ⟨by decide, ?_⟩
  intro err h
  rw [show readDependencies cex_no_dynstr = Except.ok ∅ from by decide] at h
  simp at h

/-- C5 (amended): an absent `.dynamic` section fails with the Python
`TypeError` (not a dedicated `MalformedElf`); an absent `.dynstr`
section alone does not fail — the reader succeeds when no tag-1 entry
is visited and fails with the Python `AttributeError` at the first
tag-1 entry it reaches. -/
theorem claim_C5_amended :
    (∀ (f : ElfFile) (w : Nat), arch_width f.e_machine = .ok w →
      f.dynamic = none → readDependencies f = .error .typeError) ∧
    (∀ (f : ElfFile) (w : Nat) (dyn : ElfSection),
      arch_width f.e_machine = .ok w → f.dynamic = some dyn →
      f.dynstr = none → dyn.sh_entsize ≠ 0 →
      (∀ k < dyn.sh_size / dyn.sh_entsize,
        2 * w ≤ (entry_slice dyn.data dyn.sh_entsize k).length ∧
          entry_tag w (entry_slice dyn.data dyn.sh_entsize k) ≠ 1) →
      readDependencies f = .ok ∅) ∧
    (∀ (f : ElfFile) (w : Nat) (dyn : ElfSection) (j : Nat),
      arch_width f.e_machine = .ok w → f.dynamic = some dyn →
      f.dynstr = none → dyn.sh_entsize ≠ 0 →
      j < dyn.sh_size / dyn.sh_entsize →
      (∀ k < j, 2 * w ≤ (entry_slice dyn.data dyn.sh_entsize k).length ∧
        entry_tag w (entry_slice dyn.data dyn.sh_entsize k) ≠ 1) →
      2 * w ≤ (entry_slice dyn.data dyn.sh_entsize j).length →
      entry_tag w (entry_slice dyn.data dyn.sh_entsize j) = 1 →
      readDependencies f = .error .attributeError) :=
  ⟨fun f w h1 h2 => readDependencies_dyn_none f w h1 h2,
   fun f w dyn h1 h2 h3 h4 h5 =>
     readDependencies_no_dynstr_ok f w dyn h1 h2 h3 h4 h5,
   fun f w dyn j h1 h2 h3 h4 h5 h6 h7 h8 =>
     readDependencies_no_dynstr_err f w dyn j h1 h2 h3 h4 h5 h6 h7 h8⟩

/-- C5, instantiated: the three amended behaviours at concrete files. -/
theorem claim_C5_witness :
    readDependencies ⟨"EM_386", none, none⟩ = .error .typeError ∧
    readDependencies cex_no_dynstr = .ok ∅ ∧
    readDependencies
        ⟨"EM_X86_64", some ⟨16, 16, mk_dyn_data 8 [(1, 0)]⟩, none⟩ =
      .error .attributeError :=
  ⟨claim_C5_amended.1 ⟨"EM_386", none, none⟩ 4 (by decide) rfl,
   claim_C5_amended.2.1 cex_no_dynstr 8 ⟨16, 0, []⟩ (by decide) rfl rfl
     (by decide) (by decide),
   claim_C5_amended.2.2 ⟨"EM_X86_64", some ⟨16, 16, mk_dyn_data 8 [(1, 0)]⟩, none⟩
     8 ⟨16, 16, mk_dyn_data 8 [(1, 0)]⟩ 0 (by decide) rfl rfl (by decide)
     (by decide) (by decide) (by decide) (by decide)⟩

/-- C3, counterexample: on a 64-bit file with declared `sh_entsize` 32
holding two architecture-sized (16-byte) tag-1 entries, the code reads
ONE entry with stride 32 (finding only `libx.so.1`), while the claimed
architecture-determined layout (stride 16, count `sh_size / 16`) reads
both; the two disagree. -/
theorem claim_C3_cex :
    readDependencies cex_stride = .ok {nameX} ∧
    spec_read_dependencies cex_stride = .ok {nameX, nameY} ∧
    readDependencies cex_stride ≠ spec_read_dependencies cex_stride :=
  ⟨by decide, by decide, by decide⟩

/-- C3 (amended): the FIELD widths are architecture-determined (an
8-byte unsigned little-endian tag then an 8-byte value for 64-bit
files, 4+4 for 32-bit), but the stride and the entry count come from
the section header: the k-th entry is read at byte offset
`k * sh_entsize`, and the entry count is `sh_size / sh_entsize`
(floor) — not the architecture entry size. -/
theorem claim_C3_amended (f : ElfFile) (w : Nat) (dyn sd : ElfSection)
    (harch : arch_width f.e_machine = .ok w)
    (hdyn : f.dynamic = some dyn) (hds : f.dynstr = some sd)
    (hes : dyn.sh_entsize ≠ 0)
    (hlen : ∀ k < dyn.sh_size / dyn.sh_entsize,
      2 * w ≤ (entry_slice dyn.data dyn.sh_entsize k).length) :
    ∃ S, readDependencies f = .ok S ∧
      ∀ x, x ∈ S ↔ ∃ k < dyn.sh_size / dyn.sh_entsize,
        leVal (((dyn.data.drop (k * dyn.sh_entsize)).take dyn.sh_entsize).take w) = 1 ∧
        x = get_string sd.data
          (leVal ((((dyn.data.drop (k * dyn.sh_entsize)).take
            dyn.sh_entsize).drop w).take w)) := by
  refine ⟨_, readDependencies_char f w dyn sd harch hdyn hds hes hlen, ?_⟩
  intro x
  rw [mem_needed_toFinset]
  constructor
  · rintro ⟨k, hk, h1, rfl⟩
    exact ⟨k, List.mem_range.mp hk, h1, rfl⟩
  · rintro ⟨k, hk, h1, rfl⟩
    exact ⟨k, List.mem_range.mpr hk, h1, rfl⟩

/-- C3, instantiated at the declared-stride-32 file. -/
theorem claim_C3_witness :
    ∃ S, readDependencies cex_stride = .ok S ∧
      ∀ x, x ∈ S ↔ ∃ k < (32 : Nat) / 32,
        leVal ((((mk_dyn_data 8 [(1, 0), (1, 10)]).drop (k * 32)).take 32).take 8) = 1 ∧
        x = get_string (nameX ++ [0] ++ nameY ++ [0])
          (leVal (((((mk_dyn_data 8 [(1, 0), (1, 10)]).drop (k * 32)).take
            32).drop 8).take 8)) :=
  claim_C3_amended cex_stride 8 ⟨32, 32, mk_dyn_data 8 [(1, 0), (1, 10)]⟩
    ⟨0, 20, nameX ++ [0] ++ nameY ++ [0]⟩ (by decide) rfl rfl (by decide)
    (by decide)

/-- C6: in the entry loop, a name is added if and only if the entry's
tag equals 1, in which case the value indexes `.dynstr` and the
NUL-terminated string there is added; every other tag — including the
end-of-list sentinel 0 — is skipped without error and the scan of the
remaining entries continues (the loop still returns a result). -/
theorem claim_C6_tag_dispatch (w es : Nat) (d ds : List Byte) (v : Bool)
    (ks : List Nat) (acc : Finset Name)
    (hlen : ∀ k ∈ ks, 2 * w ≤ (entry_slice d es k).length) :
    ∃ S, (scan_entries w es d (some ds) v ks acc).1 = .ok S ∧
      ∀ x, x ∈ S ↔ x ∈ acc ∨ ∃ k ∈ ks,
        entry_tag w (entry_slice d es k) = 1 ∧
        x = get_string ds (entry_val w (entry_slice d es k)) := by
  refine ⟨acc ∪ (needed_list w es d ds ks).toFinset, ?_, ?_⟩
  · rw [scan_entries_ok w es d ds v ks acc hlen]
  · intro x
    rw [Finset.mem_union, mem_needed_toFinset]

/-- C6, instantiated: width-1 fields, entry size 2; index 0 carries
tag 1 (value 0, naming the byte string `A`), index 1 carries the
sentinel tag 0, index 2 carries tag 2 — both skipped, loop succeeds. -/
theorem claim_C6_witness :
    ∃ S, (scan_entries 1 2 [1, 0, 0, 0, 2, 9] (some [65, 0]) false
        [0, 1, 2] ∅).1 = .ok S ∧
      ∀ x, x ∈ S ↔ x ∈ (∅ : Finset Name) ∨ ∃ k ∈ [0, 1, 2],
        entry_tag 1 (entry_slice [1, 0, 0, 0, 2, 9] 2 k) = 1 ∧
        x = get_string [65, 0] (entry_val 1 (entry_slice [1, 0, 0, 0, 2, 9] 2 k)) :=
  claim_C6_tag_dispatch 1 2 [1, 0, 0, 0, 2, 9] [65, 0] false [0, 1, 2] ∅
    (by decide)

/-- C8: when the walk reaches a matched file whose read fails, the
failure propagates to the caller at once: the collector returns that
error (no result sequence), and the outcome is the same whatever files
would have followed — there is no per-file recovery. -/
theorem claim_C8_fail_fast (v : Bool) (fs pre rest : List FsEntry)
    (bad : FsEntry) (err : PyError)
    (hsplit : fs.filter (fun e => so_match e.name) = pre ++ bad :: rest)
    (hpre : ∀ e ∈ pre, ∃ T, readDependencies e.file = .ok T)
    (hbad : readDependencies bad.file = .error err) :
    (find_so_files v fs).1 = .error err ∧
    ∀ (rest₂ : List FsEntry) (acc : Finset Name),
      (walk_files v (pre ++ bad :: rest₂) acc).1 = .error err := by
  constructor
  · unfold find_so_files
    dsimp only
    rw [hsplit, walk_files_err v pre ∅ bad rest err hpre hbad]
    rfl
  · intro rest₂ acc
    exact walk_files_err v pre acc bad rest₂ err hpre hbad

/-- C8, instantiated: a good file, then an unsupported-architecture
file, then another good file; the middle file's error is the whole
collector's outcome. -/
theorem claim_C8_witness :
    (find_so_files false
      [⟨[], "a.so", fileX⟩, ⟨[], "bad.so", cex_arm⟩, ⟨[], "c.so", fileY⟩]).1 =
      .error (.runtimeError "Unsupported Architecture: EM_ARM") :=
  (claim_C8_fail_fast false
    [⟨[], "a.so", fileX⟩, ⟨[], "bad.so", cex_arm⟩, ⟨[], "c.so", fileY⟩]
    [⟨[], "a.so", fileX⟩] [⟨[], "c.so", fileY⟩] ⟨[], "bad.so", cex_arm⟩
    (.runtimeError "Unsupported Architecture: EM_ARM")
    (by decide)
    (fun e he => by
      rw [List.mem_singleton] at he
      subst he
      exact ⟨{nameX}, by decide⟩)
    (by decide)).1

/-- C7: the collector scans exactly the files (at any depth, the root
included) whose name ends in `.so`; on success the returned sequence
is duplicate-free, lexicographically sorted, and holds exactly the
names read from those files; a tree with no `.so` files yields the
empty sequence without error; and the spec's three-file example yields
exactly `["libx.so.1", "liby.so.2"]`. -/
theorem claim_C7_collect :
    (∀ (v : Bool) (fs : List FsEntry),
      (∀ e ∈ fs, so_match e.name = false) →
      find_so_files v fs = (.ok [], [])) ∧
    (∀ (v : Bool) (fs : List FsEntry) (names : List Name),
      (find_so_files v fs).1 = .ok names →
      names.Nodup ∧ List.Sorted (fun a b : Name => a ≤ b) names ∧
      ∀ x, x ∈ names ↔ ∃ e ∈ fs, so_match e.name = true ∧
        ∃ T, readDependencies e.file = .ok T ∧ x ∈ T) ∧
    (find_so_files false exampleTree).1 = .ok [nameX, nameY] := by
  refine ⟨?_, ?_, by decide⟩
  · intro v fs hnone
    unfold find_so_files
    have hf : fs.filter (fun e => so_match e.name) = [] := by
      rw [List.filter_eq_nil_iff]
      intro e he
      simp [hnone e he]
    rw [hf]
    rfl
  · intro v fs names h
    obtain ⟨S, hS, rfl⟩ := find_so_files_ok_names v fs names h
    refine ⟨sort_names_nodup S, sort_names_sorted S, ?_⟩
    intro x
    rw [mem_sort_names, walk_files_ok_mem v _ ∅ S hS x]
    simp only [Finset.not_mem_empty, false_or, List.mem_filter]
    constructor
    · rintro ⟨e, ⟨hefs, hso⟩, T, hT, hx⟩
      exact ⟨e, hefs, hso, T, hT, hx⟩
    · rintro ⟨e, hefs, hso, T, hT, hx⟩
      exact ⟨e, ⟨hefs, hso⟩, T, hT, hx⟩

/-- C7, instantiated at the spec's example tree. -/
theorem claim_C7_witness :
    ([nameX, nameY] : List Name).Nodup ∧
    List.Sorted (fun a b : Name => a ≤ b) [nameX, nameY] ∧
    ∀ x, x ∈ ([nameX, nameY] : List Name) ↔ ∃ e ∈ exampleTree,
      so_match e.name = true ∧ ∃ T, readDependencies e.file = .ok T ∧ x ∈ T :=
  claim_C7_collect.2.1 false exampleTree [nameX, nameY] (by decide)

/-- C1: on a valid synthetic little-endian ELF of a supported
architecture whose tag-1 entries reference NUL-terminated `.dynstr`
offsets, the collector run on that one file returns exactly the set of
referenced strings — every NEEDED name appears, nothing else appears,
there are no duplicates even when two entries reference the same
string, and the result is unchanged under any permutation of the
dynamic entries. -/
theorem claim_C1_reader_roundtrip (m : String) (w : Nat)
    (harch : (m = "EM_X86_64" ∧ w = 8) ∨ (m = "EM_386" ∧ w = 4))
    (entries : List (Nat × Nat)) (strtab : List Byte)
    (hb : ∀ p ∈ entries, p.1 < 256 ^ w ∧ p.2 < 256 ^ w)
    (_hterm : ∀ p ∈ entries, p.1 = 1 → (0 : Byte) ∈ strtab.drop p.2)
    (v : Bool) (dirs : List String) (nm : String)
    (hso : so_match nm = true) :
    ∃ names : List Name,
      (find_so_files v [⟨dirs, nm, mk_elf m w entries strtab⟩]).1 = .ok names ∧
      (∀ x, x ∈ names ↔ ∃ p ∈ entries, p.1 = 1 ∧ x = get_string strtab p.2) ∧
      names.Nodup ∧ List.Sorted (fun a b : Name => a ≤ b) names ∧
      ∀ entries₂, entries.Perm entries₂ →
        (find_so_files v [⟨dirs, nm, mk_elf m w entries₂ strtab⟩]).1 =
          .ok names := by
  have harch' : arch_width m = .ok w := by
    rcases harch with ⟨h1, h2⟩ | ⟨h1, h2⟩ <;> subst h1 <;> subst h2 <;> decide
  have hw : 0 < w := by
    rcases harch with ⟨h1, h2⟩ | ⟨h1, h2⟩ <;> omega
  have hrd := readDependencies_mk m w harch' hw entries strtab hb
  refine ⟨sort_names ((entries.filterMap (fun p =>
      if p.1 = 1 then some (get_string strtab p.2) else none)).toFinset),
    find_so_files_single v ⟨dirs, nm, mk_elf m w entries strtab⟩ hso _ hrd,
    ?_, sort_names_nodup _, sort_names_sorted _, ?_⟩
  · intro x
    rw [mem_sort_names, mem_filterMap_needed]
  · intro entries₂ hperm
    have hb₂ : ∀ p ∈ entries₂, p.1 < 256 ^ w ∧ p.2 < 256 ^ w :=
      fun p hp => hb p (hperm.mem_iff.mpr hp)
    have hrd₂ := readDependencies_mk m w harch' hw entries₂ strtab hb₂
    have hset : (entries₂.filterMap (fun p =>
        if p.1 = 1 then some (get_string strtab p.2) else none)).toFinset =
        (entries.filterMap (fun p =>
          if p.1 = 1 then some (get_string strtab p.2) else none)).toFinset :=
      List.toFinset_eq_of_perm _ _ (hperm.filterMap _).symm
    rw [hset] at hrd₂
    exact find_so_files_single v ⟨dirs, nm, mk_elf m w entries₂ strtab⟩ hso _ hrd₂

/-- C1, instantiated on a 32-bit file with two tag-1 entries
referencing the same string and one unrelated tag-5 entry. -/
theorem claim_C1_witness :
    ∃ names : List Name,
      (find_so_files false [⟨[], "a.so",
        mk_elf "EM_386" 4 [(1, 0), (1, 0), (5, 3)] (nameX ++ [0])⟩]).1 =
        .ok names ∧
      (∀ x, x ∈ names ↔ ∃ p ∈ [((1 : Nat), (0 : Nat)), (1, 0), (5, 3)],
        p.1 = 1 ∧ x = get_string (nameX ++ [0]) p.2) ∧
      names.Nodup ∧ List.Sorted (fun a b : Name => a ≤ b) names ∧
      ∀ entries₂, List.Perm [((1 : Nat), (0 : Nat)), (1, 0), (5, 3)] entries₂ →
        (find_so_files false [⟨[], "a.so",
          mk_elf "EM_386" 4 entries₂ (nameX ++ [0])⟩]).1 = .ok names :=
  claim_C1_reader_roundtrip "EM_386" 4 (Or.inr ⟨rfl, rfl⟩)
    [(1, 0), (1, 0), (5, 3)] (nameX ++ [0]) (by decide) (by decide) false []
    "a.so" (by decide)

end CopyLibs
